import Mathlib

/-!
Shallow embedding of the `atom` crate (`src/lib.rs`): a lock-free slot
(`Atom<P>`) holding at most one owned pointer-like value, a write-once view
(`AtomSetOnce<P>`), the owner-kind conversions (`IntoRawPtr`/`FromRawPtr`
for `Box<T>`, `Arc<T>` and `&'a T`) and the intrusive-link LIFO helper
(`replace_and_set_next` with `GetNextMut`).

Modelling choices:
* A raw machine word (`*mut ()`) is `Raw := Option Nat`: `none` is the null
  pointer, `some a` is the non-null address `a`.  `AtomicPtr` comparison in
  the CAS family is equality of these words.
* An owned pointer value `P` is `OwnedPtr α`: its raw address together with
  the payload it owns.  The payload component is ghost state: the code's
  `from_raw (into_raw v) = v` round-trip contract (proved separately against
  a heap model below) lets the slot carry the payload alongside the address.
* The code is sequential here: each operation is a function from the slot
  state (and its arguments) to its result and the next slot state, i.e. the
  semantics of one uncontended atomic execution.  `compare_exchange_weak`
  additionally takes a `spurious` oracle, because the underlying hardware
  primitive is allowed to fail spuriously even when the comparison succeeds.
* `ptr::drop_in_place` (a teardown effect) is modelled by returning the
  value handed to teardown as an extra output.
-/

namespace AtomLib

/-- A raw machine word `*mut ()`: `none` is null, `some a` the address `a`. -/
abbrev Raw : Type := Option Nat

/-- An owned pointer-like value `P`: the raw address of its allocation
together with the payload it owns (ghost state justified by the
`from_raw (into_raw v) = v` contract). -/
structure OwnedPtr (α : Type) : Type where
  addr : Nat
  val : α
  deriving DecidableEq, Repr

/-- The word stored in the slot, at the logical level: empty or one owned
value.  Its raw representation is `rawOf`. -/
abbrev Word (α : Type) : Type := Option (OwnedPtr α)

/-- Source `Atom::inner_into_raw` composed with `into_raw`: the raw word encoding a
logical slot content (`None ↦ null`, `Some v ↦ v.into_raw()`). -/
def rawOf {α : Type} (w : Word α) : Raw :=
  w.map OwnedPtr.addr

/-- Source `Atom::inner_as_ptr`: the raw word denoted by an optional borrow
`Option<&P>` (`&**val as *mut ()`, the address of the deref target, which is
the allocation address for `Box`, `Arc` and `&T`). -/
def inner_as_ptr {α : Type} (v : Option (OwnedPtr α)) : Raw :=
  v.map OwnedPtr.addr

/-- Source `Atom<P>`: one atomic word, logically empty or holding one owned value. -/
structure Atom (α : Type) : Type where
  inner : Word α
  deriving DecidableEq, Repr

namespace Atom

/-- Source `Atom::empty`: the slot starts as the null pointer. -/
def empty {α : Type} : Atom α :=
  { inner := none }

/-- Source `Atom::new`: the slot starts holding `value.into_raw()`. -/
def new {α : Type} (value : OwnedPtr α) : Atom α :=
  { inner := some value }

/-- Source `AtomicPtr::swap` at the word level: one atomic exchange of the stored
word for `w`, returning the previous word (already reconstituted through
`inner_from_raw`, which is the ghost-payload identity here). -/
def innerSwap {α : Type} (a : Atom α) (w : Word α) : Word α × Atom α :=
  (a.inner, { inner := w })

/-- Source `Atom::swap`: install `v`, return the previous resident.  A single
unconditional atomic exchange; it never retries. -/
def swap {α : Type} (a : Atom α) (v : OwnedPtr α) : Word α × Atom α :=
  a.innerSwap (some v)

/-- Source `Atom::take`: exchange the stored word for null, return the previous
resident. -/
def take {α : Type} (a : Atom α) : Word α × Atom α :=
  a.innerSwap none

/-- Source `impl Drop for Atom`: destruction calls `self.take()`; the first
component is the value handed to teardown (torn down exactly once by the
caller of `take`, namely `drop`), `none` if the slot was empty. -/
def dropAtom {α : Type} (a : Atom α) : Word α × Atom α :=
  a.take

/-- Source `Atom::set_if_none`: `compare_exchange(null, v.into_raw())`.  On success
(the stored word was null) the slot now holds `v` and `None` is returned; on
failure `Some(from_raw(new))` — the very value `v` — is returned and the
slot is unchanged. -/
def set_if_none {α : Type} (a : Atom α) (v : OwnedPtr α) :
    Word α × Atom α :=
  if rawOf a.inner = (none : Raw) then
    (none, { inner := some v })
  else
    (some v, a)

/-- Source `Atom::is_none`: whether the stored word is null. -/
def is_none {α : Type} (a : Atom α) : Bool :=
  (rawOf a.inner).isNone

/-- Source `Atom::compare_and_swap`: store `new` if the stored word equals the word
denoted by `current`.  On success return the displaced value; on failure
return `new` (reconstituted, never dropped) together with the raw word
currently resident (`pprev as *mut P`). -/
def compare_and_swap {α : Type} (a : Atom α) (current : Option (OwnedPtr α))
    (new : Word α) : (Except (Word α × Raw) (Word α)) × Atom α :=
  let pcurrent := inner_as_ptr current
  if rawOf a.inner = pcurrent then
    (Except.ok a.inner, { inner := new })
  else
    (Except.error (new, rawOf a.inner), a)

/-- Source `Atom::compare_exchange`: same operational content as
`compare_and_swap` (the source bodies differ only in combinator style). -/
def compare_exchange {α : Type} (a : Atom α) (current : Option (OwnedPtr α))
    (new : Word α) : (Except (Word α × Raw) (Word α)) × Atom α :=
  if rawOf a.inner = inner_as_ptr current then
    (Except.ok a.inner, { inner := new })
  else
    (Except.error (new, rawOf a.inner), a)

/-- Source `Atom::compare_exchange_weak`: like `compare_exchange`, but the
underlying `AtomicPtr::compare_exchange_weak` may fail spuriously even when
the comparison succeeds; the oracle `spurious` selects such an execution. -/
def compare_exchange_weak {α : Type} (a : Atom α)
    (current : Option (OwnedPtr α)) (new : Word α) (spurious : Bool) :
    (Except (Word α × Raw) (Word α)) × Atom α :=
  if rawOf a.inner = inner_as_ptr current ∧ spurious = false then
    (Except.ok a.inner, { inner := new })
  else
    (Except.error (new, rawOf a.inner), a)

end Atom

@[simp]
theorem rawOf_none {α : Type} : rawOf (none : Word α) = none := rfl

@[simp]
theorem rawOf_some {α : Type} (p : OwnedPtr α) :
    rawOf (some p : Word α) = some p.addr := rfl

@[simp]
theorem rawOf_eq_none_iff {α : Type} (w : Word α) :
    rawOf w = none ↔ w = none := by
  cases w <;> simp [rawOf]

/-- C8: `Atom::swap` installs `v` and returns the previous resident (`none`
when the slot was empty); it is a single unconditional exchange. -/
theorem swap_spec {α : Type} (a : Atom α) (v : OwnedPtr α) :
    (a.swap v).1 = a.inner ∧ (a.swap v).2.inner = some v :=
  ⟨rfl, rfl⟩

/-- C7: `Atom::take` installs empty and returns the previous resident, and
both its result and its resulting slot state coincide with those of the
swap primitive invoked with the empty (null) replacement word. -/
theorem take_spec {α : Type} (a : Atom α) :
    (a.take.1 = a.inner ∧ a.take.2.inner = none) ∧
      a.take = a.innerSwap none ∧
      ∀ v : OwnedPtr α, a.take.1 = (a.swap v).1 :=
  ⟨⟨rfl, rfl⟩, rfl, fun _ => rfl⟩

/-- C5: a successful `swap` or `take` hands the displaced value to the
caller; dropping the `Atom` (`drop` calls `take`) hands any resident value
to teardown exactly once, leaves the slot empty (so a second teardown would
tear down nothing), and tears down nothing when the slot was empty. -/
theorem drop_spec {α : Type} (a : Atom α) (v : OwnedPtr α) :
    (a.take.1 = a.inner ∧ (a.swap v).1 = a.inner) ∧
      (a.dropAtom.1 = a.inner ∧ a.dropAtom.2.inner = none) ∧
      (a.dropAtom.2.dropAtom.1 = none) ∧
      ((Atom.empty : Atom α).dropAtom.1 = none) :=
  ⟨⟨rfl, rfl⟩, ⟨rfl, rfl⟩, rfl, rfl⟩

/-- C1: `Atom::set_if_none` installs `v` and returns `none` exactly when the
slot is empty; on a non-empty slot it returns `some v` — the very value
passed in, never dropped — and leaves the slot unchanged. -/
theorem set_if_none_spec {α : Type} (a : Atom α) (v : OwnedPtr α) :
    ((a.set_if_none v).1 = none ↔ a.inner = none) ∧
      (a.inner = none → (a.set_if_none v).2.inner = some v) ∧
      (a.inner ≠ none →
        (a.set_if_none v).1 = some v ∧ (a.set_if_none v).2 = a) := by
  refine ⟨?_, ?_, ?_⟩
  · cases h : a.inner <;> simp [Atom.set_if_none, h]
  · intro h
    simp [Atom.set_if_none, h]
  · intro h
    have h' : rawOf a.inner ≠ none := by
      simpa [rawOf_eq_none_iff] using h
    simp [Atom.set_if_none, h']

/-- Witness for C1: on the non-empty slot holding address 3, payload 7,
setting address 4, payload 9 returns the value back and changes nothing. -/
theorem set_if_none_spec_witness :
    ((Atom.new ⟨3, 7⟩).set_if_none (⟨4, 9⟩ : OwnedPtr Nat)).1 = some ⟨4, 9⟩ ∧
      ((Atom.new ⟨3, 7⟩).set_if_none (⟨4, 9⟩ : OwnedPtr Nat)).2
        = Atom.new ⟨3, 7⟩ :=
  (set_if_none_spec (Atom.new ⟨3, 7⟩) ⟨4, 9⟩).2.2 (by decide)

/-- C2 as stated is false for `compare_exchange_weak`: on a slot holding
address 5 with `current` of the same raw identity (a match), a spurious
execution still does not install `new`, returning it unconsumed with the
resident raw identity and leaving the slot unchanged — so the weak variant
does not install `new` "exactly when" the identities agree. -/
theorem cas_claim_counterexample :
    rawOf (Atom.new (⟨5, 99⟩ : OwnedPtr Nat)).inner
        = inner_as_ptr (some (⟨5, 99⟩ : OwnedPtr Nat)) ∧
      ((Atom.new (⟨5, 99⟩ : OwnedPtr Nat)).compare_exchange_weak
          (some ⟨5, 99⟩) (some ⟨7, 1⟩) true).2 = Atom.new ⟨5, 99⟩ ∧
      ((Atom.new (⟨5, 99⟩ : OwnedPtr Nat)).compare_exchange_weak
          (some ⟨5, 99⟩) (some ⟨7, 1⟩) true).1
        = Except.error (some ⟨7, 1⟩, some 5) :=
  ⟨rfl, by decide, rfl⟩

/-- C2 (amended): `compare_and_swap` and `compare_exchange` install `new`
exactly when the raw identity of `current` equals the slot's resident raw
identity (`none` matching empty), and `compare_exchange_weak` installs only
then and only in a non-spurious execution; on success all three return the
displaced value, on failure they return `new` unconsumed together with the
resident raw word, leaving the slot unchanged; and all three compare by raw
identity only — their results are invariant under replacing `current` by
any borrow of the same raw identity, regardless of payload equality. -/
theorem cas_family_spec {α : Type} (a : Atom α)
    (current current' : Option (OwnedPtr α)) (new : Word α)
    (spurious : Bool) :
    (rawOf a.inner = inner_as_ptr current →
      a.compare_and_swap current new = (Except.ok a.inner, { inner := new })
        ∧ a.compare_exchange current new
            = (Except.ok a.inner, { inner := new })
        ∧ (spurious = false →
            a.compare_exchange_weak current new spurious
              = (Except.ok a.inner, { inner := new }))
        ∧ (spurious = true →
            a.compare_exchange_weak current new spurious
              = (Except.error (new, rawOf a.inner), a))) ∧
    (rawOf a.inner ≠ inner_as_ptr current →
      a.compare_and_swap current new
          = (Except.error (new, rawOf a.inner), a)
        ∧ a.compare_exchange current new
            = (Except.error (new, rawOf a.inner), a)
        ∧ a.compare_exchange_weak current new spurious
            = (Except.error (new, rawOf a.inner), a)) ∧
    (inner_as_ptr current = inner_as_ptr current' →
      a.compare_and_swap current new = a.compare_and_swap current' new
        ∧ a.compare_exchange current new = a.compare_exchange current' new
        ∧ a.compare_exchange_weak current new spurious
            = a.compare_exchange_weak current' new spurious) := by
  refine ⟨fun h => ?_, fun h => ?_, fun h => ?_⟩
  · refine ⟨?_, ?_, fun hs => ?_, fun hs => ?_⟩
    · simp [Atom.compare_and_swap, h]
    · simp [Atom.compare_exchange, h]
    · simp [Atom.compare_exchange_weak, h, hs]
    · simp [Atom.compare_exchange_weak, h, hs]
  · refine ⟨?_, ?_, ?_⟩ <;>
      simp [Atom.compare_and_swap, Atom.compare_exchange,
        Atom.compare_exchange_weak, h]
  · refine ⟨?_, ?_, ?_⟩ <;>
      simp [Atom.compare_and_swap, Atom.compare_exchange,
        Atom.compare_exchange_weak, h]

/-- Witness for C2 (amended): on a slot holding address 2, payload 5, a
`current` borrow with the same address but a different payload matches (the
comparison is by identity), and `compare_and_swap` installing the null word
succeeds returning the displaced value. -/
theorem cas_family_spec_witness :
    (Atom.new (⟨2, 5⟩ : OwnedPtr Nat)).compare_and_swap (some ⟨2, 8⟩) none
      = (Except.ok (some ⟨2, 5⟩), { inner := none }) :=
  ((cas_family_spec (Atom.new ⟨2, 5⟩) (some ⟨2, 8⟩) none none false).1
    (by decide)).1

/-! ### The write-once view `AtomSetOnce<P>` -/

/-- Source `AtomSetOnce<P>`: wraps an `Atom` but exposes only `set_if_none`, `get`,
`get_mut` (exclusive access), `dup` and `is_none`. -/
structure AtomSetOnce (α : Type) : Type where
  inner : Atom α
  deriving DecidableEq, Repr

namespace AtomSetOnce

/-- Source `AtomSetOnce::empty`. -/
def empty {α : Type} : AtomSetOnce α :=
  { inner := Atom.empty }

/-- Source `AtomSetOnce::new`. -/
def new {α : Type} (value : OwnedPtr α) : AtomSetOnce α :=
  { inner := Atom.new value }

/-- Source `AtomSetOnce::set_if_none`: delegates to `Atom::set_if_none`. -/
def set_if_none {α : Type} (s : AtomSetOnce α) (v : OwnedPtr α) :
    Word α × AtomSetOnce α :=
  let r := s.inner.set_if_none v
  (r.1, { inner := r.2 })

/-- Source `AtomSetOnce::get`: load the word, reconstitute, then `copy_lifetime`
and `mem::forget` — the state is untouched and the caller receives a borrow
of the resident's deref target (modelled by its address and referent). -/
def get {α : Type} (s : AtomSetOnce α) : Option (OwnedPtr α) :=
  s.inner.inner

/-- Source `AtomSetOnce::dup`: load the word, reconstitute, clone the handle and
`mem::forget` the reconstituted one — the state is untouched and the clone
of a shared handle denotes the same allocation (same address, same
referent). -/
def dup {α : Type} (s : AtomSetOnce α) : Option (OwnedPtr α) :=
  s.inner.inner

/-- Source `AtomSetOnce::is_none`: delegates to `Atom::is_none`. -/
def is_none {α : Type} (s : AtomSetOnce α) : Bool :=
  s.inner.is_none

end AtomSetOnce

/-- C4: once an `AtomSetOnce` slot holds the resident `p`, every operation
it exposes over a shared reference preserves it: `set_if_none` fails,
returning its argument and leaving the state unchanged, and `get`, `dup`
and `is_none` do not change the state at all, so repeated `get`/`dup`
calls — also after a failed `set_if_none` — observe the same resident
address and referent `p`. -/
theorem write_once_stable {α : Type} (s : AtomSetOnce α) (p v : OwnedPtr α)
    (h : s.inner.inner = some p) :
    (s.set_if_none v).1 = some v ∧ (s.set_if_none v).2 = s ∧
      s.get = some p ∧ s.dup = some p ∧ s.is_none = false ∧
      (s.set_if_none v).2.get = some p ∧ (s.set_if_none v).2.dup = some p := by
  have h' : rawOf s.inner.inner ≠ none := by
    simp [h]
  refine ⟨?_, ?_, ?_, ?_, ?_, ?_, ?_⟩ <;>
    simp [AtomSetOnce.set_if_none, Atom.set_if_none, AtomSetOnce.get,
      AtomSetOnce.dup, AtomSetOnce.is_none, Atom.is_none, h', h]

/-- Witness for C4: a view holding address 2, payload 7 is stable under a
failed `set_if_none` of address 9, payload 1, and `get` observes it. -/
theorem write_once_stable_witness :
    ((AtomSetOnce.new ⟨2, 7⟩).set_if_none (⟨9, 1⟩ : OwnedPtr Nat)).2
        = AtomSetOnce.new ⟨2, 7⟩ ∧
      (AtomSetOnce.new (⟨2, 7⟩ : OwnedPtr Nat)).get = some ⟨2, 7⟩ :=
  ⟨(write_once_stable (AtomSetOnce.new ⟨2, 7⟩) ⟨2, 7⟩ ⟨9, 1⟩ rfl).2.1,
    (write_once_stable (AtomSetOnce.new ⟨2, 7⟩) ⟨2, 7⟩ ⟨9, 1⟩ rfl).2.2.1⟩

/-! ### Owner-kind conversions: `IntoRawPtr` / `FromRawPtr`

`into_raw` consumes the owning value, returning its raw address; `from_raw`
reconstitutes an owning value from an address, which is only meaningful
while the allocation at that address is live.  Liveness is modelled by an
explicit heap: a list of live allocations, `address ↦ contents` (for `Arc`,
`address ↦ (reference count, contents)`).  `from_raw` is fallible in the
model (`none` on a null or dead address, which is undefined behaviour in
the source). -/

/-- Look up the contents of the live allocation at address `a`. -/
def lookupAddr {τ : Type} (h : List (Nat × τ)) (a : Nat) : Option τ :=
  (h.find? (fun c => c.1 == a)).map Prod.snd

namespace Box

/-- Source `IntoRawPtr for Box<T>`: `Box::into_raw(self) as *mut ()` — the
allocation's own (non-null) address; no copy, no teardown. -/
def into_raw {τ : Type} (b : OwnedPtr τ) : Raw :=
  some b.addr

/-- Source `FromRawPtr for Box<T>`: `Box::from_raw(ptr as *mut T)` — reconstitute
the unique owner of the allocation the address denotes. -/
def from_raw {τ : Type} (h : List (Nat × τ)) (r : Raw) : Option (OwnedPtr τ) :=
  r.bind (fun a => (lookupAddr h a).map (fun v => ⟨a, v⟩))

end Box

namespace Arc

/-- Source `IntoRawPtr for Arc<T>`: `Arc::into_raw(self) as *mut T as *mut ()` —
the shared allocation's address; the reference the handle held is
transferred into the raw pointer, the count is not changed. -/
def into_raw {τ : Type} (a : OwnedPtr τ) : Raw :=
  some a.addr

/-- Source `FromRawPtr for Arc<T>`: `Arc::from_raw(ptr as *const T)` — reclaim the
transferred reference as a handle to the same allocation; the count is not
changed. -/
def from_raw {τ : Type} (h : List (Nat × Nat × τ)) (r : Raw) :
    Option (OwnedPtr τ) :=
  r.bind (fun a => (lookupAddr h a).map (fun c => ⟨a, c.2⟩))

end Arc

namespace Ref

/-- Source `IntoRawPtr for &'a T`: `self as *const _ as *mut ()` — the address of
the referent; no ownership is transferred. -/
def into_raw {τ : Type} (r : OwnedPtr τ) : Raw :=
  some r.addr

/-- Source `FromRawPtr for &'a T`: `&*(ptr as *mut T)` — a borrow of the referent
at that address. -/
def from_raw {τ : Type} (h : List (Nat × τ)) (r : Raw) : Option (OwnedPtr τ) :=
  r.bind (fun a => (lookupAddr h a).map (fun v => ⟨a, v⟩))

end Ref

/-- C6: for each of the three owner kinds, while the value's allocation is
live, `from_raw (into_raw v)` yields `v` back observationally: the same
address and the same contents for the unique (`Box`) and shared (`Arc`)
owners, and the same referent for a borrowed reference. -/
theorem round_trip_spec {τ : Type} (hb hr : List (Nat × τ))
    (ha : List (Nat × Nat × τ)) (b c r : OwnedPtr τ) (cnt : Nat)
    (h1 : lookupAddr hb b.addr = some b.val)
    (h2 : lookupAddr ha c.addr = some (cnt, c.val))
    (h3 : lookupAddr hr r.addr = some r.val) :
    Box.from_raw hb (Box.into_raw b) = some b ∧
      Arc.from_raw ha (Arc.into_raw c) = some c ∧
      Ref.from_raw hr (Ref.into_raw r) = some r := by
  refine ⟨?_, ?_, ?_⟩
  · simp [Box.from_raw, Box.into_raw, h1]
  · simp [Arc.from_raw, Arc.into_raw, h2]
  · simp [Ref.from_raw, Ref.into_raw, h3]

/-- Witness for C6: concrete one-cell heaps for the three owner kinds; the
round trip reproduces each value. -/
theorem round_trip_spec_witness :
    Box.from_raw [(1, 10)] (Box.into_raw (⟨1, 10⟩ : OwnedPtr Nat))
        = some ⟨1, 10⟩ ∧
      Arc.from_raw [(2, 3, 20)] (Arc.into_raw (⟨2, 20⟩ : OwnedPtr Nat))
        = some ⟨2, 20⟩ ∧
      Ref.from_raw [(4, 30)] (Ref.into_raw (⟨4, 30⟩ : OwnedPtr Nat))
        = some ⟨4, 30⟩ :=
  round_trip_spec [(1, 10)] [(4, 30)] [(2, 3, 20)] ⟨1, 10⟩ ⟨2, 20⟩ ⟨4, 30⟩ 3
    (by decide) (by decide) (by decide)

/-! ### The intrusive-link capability and the LIFO-push helper -/

/-- Source `GetNextMut` with `NextPtr = Option<P>`: access to a value's own "next"
field, holding an optional owning pointer of the same kind.  `get_next`
returns a mutable reference in the source; here it is the read/write lens
on that field. -/
class GetNextMut (α : Type) where
  getNext : α → Option (OwnedPtr α)
  setNext : α → Option (OwnedPtr α) → α

/-- Source `Atom::replace_and_set_next`, sequential (uncontended) execution: tear
down whatever `value`'s next field held (`ptr::drop_in_place`, modelled by
the third output), load the current resident, write it into the next field
through the raw pointer (`ptr::write`), then CAS the slot from that
resident to `value`; with no interference the first CAS succeeds, and the
result is whether the replaced word was null. -/
def Atom.replace_and_set_next {α : Type} [GetNextMut α] (a : Atom α)
    (value : OwnedPtr α) : Bool × Atom α × Word α :=
  let dropped := GetNextMut.getNext value.val
  let pcurrent := rawOf a.inner
  let current := a.inner
  let node : OwnedPtr α := ⟨value.addr, GetNextMut.setNext value.val current⟩
  (pcurrent.isNone, { inner := some node }, dropped)

/-- C3: `replace_and_set_next` reads the slot's current resident (possibly
none), writes it into `v`'s own next field, installs `v` (same address,
next field now the prior resident) as the new slot content, and returns
true exactly when the slot transitioned from empty to holding `v`. -/
theorem replace_and_set_next_spec {α : Type} [GetNextMut α] (a : Atom α)
    (v : OwnedPtr α) :
    (a.replace_and_set_next v).2.1.inner
        = some ⟨v.addr, GetNextMut.setNext v.val a.inner⟩ ∧
      ((a.replace_and_set_next v).1 = true ↔ a.inner = none) := by
  refine ⟨rfl, ?_⟩
  cases h : a.inner <;> simp [Atom.replace_and_set_next, rawOf, h]

/-- The link node used by the repository's LIFO tests: a next field holding
an optional owned pointer to another node, and a numeric payload. -/
inductive Link : Type where
  | mk (next : Option (OwnedPtr Link)) (value : Nat)

/-- The next field of a `Link`. -/
def Link.next : Link → Option (OwnedPtr Link)
  | .mk n _ => n

/-- The numeric payload of a `Link`. -/
def Link.value : Link → Nat
  | .mk _ v => v

/-- Source `GetNextMut for Box<Link>`: the lens on the `next` field. -/
instance : GetNextMut Link where
  getNext l := l.next
  setNext l n := Link.mk n l.value

/-- The payloads along a chain of links, in order. -/
def Link.chainList : Link → List Nat
  | .mk none v => [v]
  | .mk (some p) v => v :: p.val.chainList

/-- The payloads of the chain anchored at the slot. -/
def slotList (a : Atom Link) : List Nat :=
  match a.inner with
  | none => []
  | some p => p.val.chainList

/-- Draining as in the `lifo` test: `take` the chain out of the slot, then
walk the next links collecting payloads. -/
def drain (a : Atom Link) : List Nat :=
  match a.take.1 with
  | none => []
  | some p => p.val.chainList

/-- Pushing a sequence of nodes one at a time with
`replace_and_set_next`, collecting the helper's results. -/
def pushAll (a : Atom Link) : List (OwnedPtr Link) → List Bool × Atom Link
  | [] => ([], a)
  | v :: vs =>
    let r := a.replace_and_set_next v
    let rest := pushAll r.2.1 vs
    (r.1 :: rest.1, rest.2)

theorem drain_eq_slotList (a : Atom Link) : drain a = slotList a := rfl

@[simp]
theorem slotList_push (a : Atom Link) (v : OwnedPtr Link) :
    slotList (a.replace_and_set_next v).2.1 = v.val.value :: slotList a := by
  cases hv : v.val with
  | mk n w =>
    cases h : a.inner <;>
      simp [Atom.replace_and_set_next, slotList, Link.chainList, h, hv,
        GetNextMut.setNext, Link.value]

theorem pushAll_slotList (vs : List (OwnedPtr Link)) (a : Atom Link) :
    slotList (pushAll a vs).2
      = (vs.map (fun v => v.val.value)).reverse ++ slotList a := by
  induction vs generalizing a with
  | nil => simp [pushAll]
  | cons v vs ih => simp [pushAll, ih]

theorem pushAll_flags_of_nonempty (vs : List (OwnedPtr Link)) (a : Atom Link)
    (h : a.inner ≠ none) :
    (pushAll a vs).1 = List.replicate vs.length false := by
  induction vs generalizing a with
  | nil => simp [pushAll]
  | cons v vs ih =>
    cases hp : a.inner with
    | none => exact absurd hp h
    | some p =>
      have h2 : ((a.replace_and_set_next v).2.1).inner ≠ none := by
        simp [Atom.replace_and_set_next]
      have hflag : (a.replace_and_set_next v).1 = false := by
        simp [Atom.replace_and_set_next, hp, rawOf]
      simp [pushAll, hflag, ih _ h2, List.replicate]

/-- C9: pushing any nonempty sequence of nodes one at a time via
`replace_and_set_next` onto an initially empty slot makes the helper return
true for the very first push and false for every subsequent one, and
draining the resulting chain from the slot yields the pushed payloads in
exact reverse-of-push order. -/
theorem lifo_spec (v : OwnedPtr Link) (vs : List (OwnedPtr Link)) :
    (pushAll Atom.empty (v :: vs)).1 = true :: List.replicate vs.length false
      ∧ drain (pushAll Atom.empty (v :: vs)).2
          = (((v :: vs).map (fun w => w.val.value)).reverse) := by
  constructor
  · simp [pushAll, Atom.replace_and_set_next, Atom.empty, rawOf,
      pushAll_flags_of_nonempty]
  · rw [drain_eq_slotList, pushAll_slotList]
    simp [slotList, Atom.empty]

/-- C10: if the node handed to `replace_and_set_next` already holds `n` in
its next field, then `n` is exactly what is handed to teardown (the
modelled `ptr::drop_in_place`, run once, before linking), the next field is
overwritten with the slot's prior resident, and neither the helper's result
nor the installed chain depends on `n` in any way — `n` is never returned
to the caller and never appears in the chain. -/
theorem lifo_drop_spec (a : Atom Link) (adr vl : Nat)
    (n : Option (OwnedPtr Link)) :
    (a.replace_and_set_next ⟨adr, Link.mk n vl⟩).2.2 = n ∧
      (a.replace_and_set_next ⟨adr, Link.mk n vl⟩).2.1
        = { inner := some ⟨adr, Link.mk a.inner vl⟩ } ∧
      (a.replace_and_set_next ⟨adr, Link.mk n vl⟩).1
        = (rawOf a.inner).isNone ∧
      slotList (a.replace_and_set_next ⟨adr, Link.mk n vl⟩).2.1
        = vl :: slotList a := by
  refine ⟨rfl, rfl, rfl, ?_⟩
  simp [Link.value]

end AtomLib
